import Mathlib

/-!
Shallow embedding of the Bejeweled-Solver game core
(`src/game/{gem,board,rules,gravity,refill,cascade,moves}.py`).

Boards are immutable rectangular grids of gem values; the transforms
(match detection, match removal, gravity, refill, cascade resolution,
swap enumeration) are translated here as pure Lean functions.  The
external gem supplier (a stateful zero-argument callable in the source)
is modelled as a stream `s : Nat -> Gem` together with an explicit call
counter that every refill threads through, so the number of supplier
invocations is observable.  The cascade loop, a `while True` in the
source, is modelled with explicit fuel: `none` means the loop has not
returned within the given fuel.
-/

namespace Bejeweled

/-- The `GemType` enumeration from `src/game/gem.py`: six colors plus the EMPTY sentinel. -/
inductive Gem where
  | EMPTY
  | RED
  | BLUE
  | GREEN
  | YELLOW
  | PURPLE
  | ORANGE
deriving DecidableEq, Repr

/-- Property `GemType.is_matchable` from `src/game/gem.py`: every gem except EMPTY. -/
def Gem.is_matchable (g : Gem) : Bool :=
  decide (g ≠ Gem.EMPTY)

/-- The `BoardState` container from `src/game/board.py`: rows of gem values,
row-major, `rows[y][x]` addressed by coordinate (x, y). -/
structure Board where
  rows : List (List Gem)
deriving DecidableEq, Repr

/-- Property `BoardState.width`: length of the first row, 0 for no rows. -/
def Board.width (b : Board) : Nat :=
  (b.rows.headD []).length

/-- Property `BoardState.height`: the number of rows. -/
def Board.height (b : Board) : Nat :=
  b.rows.length

/-- Cell access `rows[y][x]` (the source's `BoardState.get` after its
bounds check; all uses below are in bounds, where the default is inert). -/
def Board.get (b : Board) (x y : Nat) : Gem :=
  (b.rows.getD y []).getD x Gem.EMPTY

/-- Rectangularity invariant every `BoardState` built by `from_rows`
enjoys: at least one row, and every row has the (positive) width. -/
def Board.Rect (b : Board) : Prop :=
  b.rows ≠ [] ∧ 0 < b.width ∧ ∀ r ∈ b.rows, r.length = b.width

instance (b : Board) : Decidable b.Rect := by
  unfold Board.Rect; infer_instance

/-- Factory `BoardState.from_rows` from `src/game/board.py`.  The source checks
only the row structure - `if not rows`, `0 in row_lengths`,
`len(row_lengths) != 1` - and never inspects a cell value, so the
embedding is polymorphic in the cell type. -/
def from_rows {α : Type} (rows : List (List α)) : Except String (List (List α)) :=
  if rows.isEmpty then
    .error "Board must contain at least one row."
  else
    let row_lengths := (rows.map List.length).toFinset
    if 0 ∈ row_lengths then
      .error "Board rows must contain at least one gem."
    else if row_lengths.card ≠ 1 then
      .error "Board rows must be rectangular."
    else
      .ok rows

/-- Cells as the dynamically typed source sees them: `some g` is a
GemType value, `none` stands for any Python value that is not a
GemType. -/
abbrev RawCell : Type := Option Gem

/-- Whether a raw cell is a recognized GemType value. -/
def isGemValue (c : RawCell) : Bool :=
  c.isSome

/-- Column x of the board, top to bottom (`[board.get(x, y) for y in range(height)]`). -/
def Board.column (b : Board) (x : Nat) : List Gem :=
  b.rows.map (fun row => row.getD x Gem.EMPTY)

/-- One column of `apply_gravity` from `src/game/gravity.py`: the
non-EMPTY cells in order, padded at the bottom with EMPTY. -/
def gravityColumn (height : Nat) (col : List Gem) : List Gem :=
  let non_empty := col.filter (fun g => decide (g ≠ Gem.EMPTY))
  non_empty ++ List.replicate (height - non_empty.length) Gem.EMPTY

/-- Transform `apply_gravity` from `src/game/gravity.py`: compact every column
toward row 0 and rebuild the rows from the compacted columns. -/
def apply_gravity (b : Board) : Board :=
  let height := b.height
  let width := b.width
  let columns := (List.range width).map (fun x => gravityColumn height (b.column x))
  ⟨(List.range height).map (fun y =>
      (List.range width).map (fun x => (columns.getD x []).getD y Gem.EMPTY))⟩

/-- Run-length encoding of a line of gems: the maximal runs the
`while run_end < ...` scans of `src/game/rules.py` walk over. -/
def rle : List Gem → List (Gem × Nat)
  | [] => []
  | g :: rest =>
    match rle rest with
    | [] => [(g, 1)]
    | (h, n) :: tl => if g = h then (g, n + 1) :: tl else (g, 1) :: (h, n) :: tl

/-- Indices contributed by the qualifying runs of one line
(`current.is_matchable and run_length >= MIN_MATCH_LENGTH`), the first
run starting at index `i`. -/
def lineMatches : Nat → List (Gem × Nat) → List Nat
  | _, [] => []
  | i, (g, n) :: rest =>
    (if g.is_matchable ∧ 3 ≤ n then (List.range n).map (fun k => k + i) else [])
      ++ lineMatches (i + n) rest

/-- Detector `find_matches` from `src/game/rules.py`: the union of the horizontal
pass over the rows and the vertical pass over the columns. -/
def find_matches (b : Board) : Finset (Nat × Nat) :=
  let horizontal := ((List.range b.height).flatMap (fun y =>
    (lineMatches 0 (rle (b.rows.getD y []))).map (fun x => (x, y)))).toFinset
  let vertical := ((List.range b.width).flatMap (fun x =>
    (lineMatches 0 (rle (b.column x))).map (fun y => (x, y)))).toFinset
  horizontal ∪ vertical

/-- One row of `remove_matches`: cell x of row y becomes EMPTY when
(x, y) is in the match set.  The first cell has index x0. -/
def markRow (ms : Finset (Nat × Nat)) (y : Nat) : Nat → List Gem → List Gem
  | _, [] => []
  | x0, g :: rest =>
    (if (x0, y) ∈ ms then Gem.EMPTY else g) :: markRow ms y (x0 + 1) rest

/-- All rows of `remove_matches`, the first row having index y0. -/
def markRows (ms : Finset (Nat × Nat)) : Nat → List (List Gem) → List (List Gem)
  | _, [] => []
  | y0, row :: rest => markRow ms y0 0 row :: markRows ms (y0 + 1) rest

/-- Modelled from the spec: `remove_matches` is imported from
`game.rules` by `src/game/cascade.py` and exercised by
`src/tests/test_rules.py`, but its definition is not among the source
files.  Spec 4.3: every coordinate in the match set is replaced with
EMPTY, all other cells are copied unchanged, and the operation fails if
any coordinate of the match set is out of bounds. -/
def remove_matches (b : Board) (ms : Finset (Nat × Nat)) : Except String Board :=
  if ∀ p ∈ ms, p.1 < b.width ∧ p.2 < b.height then
    .ok ⟨markRows ms 0 b.rows⟩
  else
    .error "Match coordinate out of bounds."

/-- Cell (x, y) of a raw row grid (`rows[y][x]`). -/
def get2 (rows : List (List Gem)) (x y : Nat) : Gem :=
  (rows.getD y []).getD x Gem.EMPTY

/-- Write gem g at cell (x, y) of a raw row grid (`new_rows[y][x] = supplied`). -/
def set2 (rows : List (List Gem)) (x y : Nat) (g : Gem) : List (List Gem) :=
  rows.set y ((rows.getD y []).set x g)

/-- The cell order of the refill loops of `src/game/refill.py`:
`for x in range(width): for y in range(height - 1, -1, -1)` -
left-to-right over columns, bottom-to-top inside a column. -/
def refillOrder (width height : Nat) : List (Nat × Nat) :=
  (List.range width).flatMap (fun x =>
    ((List.range height).reverse).map (fun y => (x, y)))

/-- The body of the refill loops: walk the cells in order, and at every
cell that is EMPTY in the original board b draw the next gem from the
supplier stream s (the call counter n picks the position in the
stream), failing if the drawn gem is EMPTY. -/
def refillGo (b : Board) (s : Nat → Gem) :
    List (Nat × Nat) → List (List Gem) → Nat → Except String (List (List Gem) × Nat)
  | [], rows, n => .ok (rows, n)
  | (x, y) :: rest, rows, n =>
    if b.get x y = Gem.EMPTY then
      if s n = Gem.EMPTY then
        .error "gem_supplier() returned GemType.EMPTY during refill."
      else
        refillGo b s rest (set2 rows x y (s n)) (n + 1)
    else
      refillGo b s rest rows n

/-- Transform `refill_board` from `src/game/refill.py`, the supplier state made
explicit: n is the number of supplier calls already made, and the
result pairs the refilled board with the updated call count. -/
def refill_board (b : Board) (s : Nat → Gem) (n : Nat) : Except String (Board × Nat) :=
  (refillGo b s (refillOrder b.width b.height) b.rows n).map
    (fun rn => (⟨rn.1⟩, rn.2))

/-- The number of EMPTY cells of the board, counted row by row. -/
def countEmpty (b : Board) : Nat :=
  (b.rows.map (fun row => row.countP (fun g => decide (g = Gem.EMPTY)))).sum

/-- Check `has_empty = any(...)` of `src/game/cascade.py`. -/
def hasEmpty (b : Board) : Bool :=
  b.rows.any (fun row => row.any (fun g => decide (g = Gem.EMPTY)))

/-- Loop `resolve_cascades` from `src/game/cascade.py`, the `while True`
loop run on explicit fuel: `none` means the loop has not returned
within `fuel` iterations, `some (.error e)` that an error propagated
out of `remove_matches` or `refill_board`, and `some (.ok (b, n))`
that the loop returned board b after n supplier calls. -/
def resolve_cascades (s : Nat → Gem) :
    Nat → Board → Nat → Option (Except String (Board × Nat))
  | 0, _, _ => none
  | fuel + 1, current, n =>
    if find_matches current = ∅ then
      if hasEmpty current then
        match refill_board (apply_gravity current) s n with
        | .error e => some (.error e)
        | .ok (b2, n2) => resolve_cascades s fuel b2 n2
      else
        some (.ok (⟨current.rows⟩, n))
    else
      match remove_matches current (find_matches current) with
      | .error e => some (.error e)
      | .ok cleared =>
        match refill_board (apply_gravity cleared) s n with
        | .error e => some (.error e)
        | .ok (b2, n2) => resolve_cascades s fuel b2 n2

/-- A coordinate pair naming a swap, as in `src/game/moves.py`. -/
abbrev Swap : Type := (Nat × Nat) × (Nat × Nat)

/-- Predicate `_is_in_bounds` from `src/game/moves.py`. -/
def in_bounds (b : Board) (x y : Nat) : Bool :=
  decide (x < b.width) && decide (y < b.height)

/-- Generator `_enumerate_adjacent_swaps` from `src/game/moves.py`: the swap with
the right neighbor, then the swap with the down neighbor, each kept
when the neighbor is in bounds and non-EMPTY. -/
def enumerate_adjacent_swaps (b : Board) (x y : Nat) : List Swap :=
  (if in_bounds b (x + 1) y ∧ b.get (x + 1) y ≠ Gem.EMPTY
    then [((x, y), (x + 1, y))] else [])
    ++ (if in_bounds b x (y + 1) ∧ b.get x (y + 1) ≠ Gem.EMPTY
      then [((x, y), (x, y + 1))] else [])

/-- Enumerator `enumerate_swaps` from `src/game/moves.py`: row-major over the
cells, skipping EMPTY source cells. -/
def enumerate_swaps (b : Board) : List Swap :=
  (List.range b.height).flatMap (fun y =>
    (List.range b.width).flatMap (fun x =>
      if b.get x y = Gem.EMPTY then [] else enumerate_adjacent_swaps b x y))

/-- Primitive `_apply_swap` from `src/game/moves.py`: rebuild the grid with the
two designated cells exchanged. -/
def apply_swap (b : Board) (sw : Swap) : Board :=
  let first := sw.1
  let second := sw.2
  let first_gem := b.get first.1 first.2
  let second_gem := b.get second.1 second.2
  ⟨(List.range b.height).map (fun y =>
    (List.range b.width).map (fun x =>
      if (x, y) = first then second_gem
      else if (x, y) = second then first_gem
      else b.get x y))⟩

/-- The swap order the spec describes in 4.7, written from the spec for
comparison with `enumerate_swaps`: row-major source cells, the right
neighbor before the down neighbor, neighbors kept when in bounds. -/
def specSwapOrder (width height : Nat) : List Swap :=
  (List.range height).flatMap (fun y =>
    (List.range width).flatMap (fun x =>
      (if x + 1 < width then [((x, y), (x + 1, y))] else [])
        ++ (if y + 1 < height then [((x, y), (x, y + 1))] else [])))

/-- A coordinate is row-major-earlier than another: smaller y, or equal
y and smaller x. -/
def rowMajorEarlier (p q : Nat × Nat) : Prop :=
  p.2 < q.2 ∨ (p.2 = q.2 ∧ p.1 < q.1)

/-- The number of EMPTY cells of b that the refill traversal visits
strictly before reaching cell (x, y): the stream position whose gem the
cell receives. -/
def emptiesBefore (b : Board) (x y : Nat) : Nat :=
  ((refillOrder b.width b.height).takeWhile (fun q => decide (q ≠ (x, y)))).countP
    (fun q => decide (b.get q.1 q.2 = Gem.EMPTY))

/-- The constantly-RED supplier: a supplier that never yields EMPTY. -/
def constRED : Nat → Gem := fun _ => Gem.RED

/-- A one-row board that is a single horizontal match of three REDs. -/
def rrrBoard : Board := ⟨[[Gem.RED, Gem.RED, Gem.RED]]⟩

example : apply_gravity ⟨[[Gem.EMPTY], [Gem.RED], [Gem.BLUE]]⟩
    = ⟨[[Gem.RED], [Gem.BLUE], [Gem.EMPTY]]⟩ := by decide

example : find_matches ⟨[[Gem.RED, Gem.RED, Gem.RED, Gem.BLUE],
    [Gem.GREEN, Gem.YELLOW, Gem.BLUE, Gem.YELLOW]]⟩
    = {(0, 0), (1, 0), (2, 0)} := by decide

example : remove_matches ⟨[[Gem.RED, Gem.RED, Gem.RED, Gem.BLUE],
    [Gem.GREEN, Gem.YELLOW, Gem.BLUE, Gem.YELLOW]]⟩ {(0, 0), (1, 0), (2, 0)}
    = .ok ⟨[[Gem.EMPTY, Gem.EMPTY, Gem.EMPTY, Gem.BLUE],
      [Gem.GREEN, Gem.YELLOW, Gem.BLUE, Gem.YELLOW]]⟩ := by rfl

example : refill_board ⟨[[Gem.EMPTY]]⟩ (fun _ => Gem.EMPTY) 0
    = .error "gem_supplier() returned GemType.EMPTY during refill." := by rfl

example : refill_board ⟨[[Gem.EMPTY, Gem.RED], [Gem.BLUE, Gem.EMPTY]]⟩
    (fun n => if n = 0 then Gem.GREEN else Gem.YELLOW) 0
    = .ok (⟨[[Gem.GREEN, Gem.RED], [Gem.BLUE, Gem.YELLOW]]⟩, 2) := by rfl

example : resolve_cascades (fun _ => Gem.RED) 2
    ⟨[[Gem.RED, Gem.BLUE], [Gem.BLUE, Gem.RED]]⟩ 0
    = some (.ok (⟨[[Gem.RED, Gem.BLUE], [Gem.BLUE, Gem.RED]]⟩, 0)) := by rfl

example : enumerate_swaps ⟨[[Gem.RED, Gem.BLUE], [Gem.BLUE, Gem.RED]]⟩
    = [((0, 0), (1, 0)), ((0, 0), (0, 1)), ((1, 0), (1, 1)), ((0, 1), (1, 1))]
    := by decide

example : specSwapOrder 2 2
    = [((0, 0), (1, 0)), ((0, 0), (0, 1)), ((1, 0), (1, 1)), ((0, 1), (1, 1))]
    := by decide

example : from_rows [[(none : RawCell)]] = .ok [[(none : RawCell)]] := rfl

example : (from_rows ([] : List (List Gem))).isOk = false := by decide

lemma toFinset_card_eq_one_iff (l : List Nat) (hl : l ≠ []) :
    l.toFinset.card = 1 ↔ ∀ a ∈ l, ∀ c ∈ l, a = c := by
  constructor
  · intro h a ha c hc
    obtain ⟨d, hd⟩ := Finset.card_eq_one.mp h
    have ha2 : a ∈ l.toFinset := List.mem_toFinset.mpr ha
    have hc2 : c ∈ l.toFinset := List.mem_toFinset.mpr hc
    rw [hd, Finset.mem_singleton] at ha2 hc2
    rw [ha2, hc2]
  · intro h
    obtain ⟨a, ha⟩ := List.exists_mem_of_ne_nil l hl
    have hsingle : l.toFinset = {a} := by
      apply Finset.ext
      intro x
      simp only [List.mem_toFinset, Finset.mem_singleton]
      constructor
      · intro hx
        exact h x hx a ha
      · intro hx
        rw [hx]
        exact ha
    rw [hsingle]
    exact Finset.card_singleton a

/-- C3 (amended): the factory `from_rows` fails exactly when the row list is empty,
some row is empty, or two rows differ in length; cell values are never
inspected, so a cell that is not a recognized gem value is not
rejected. -/
theorem from_rows_error_iff {α : Type} (rows : List (List α)) :
    (∃ e, from_rows rows = .error e) ↔
      rows = [] ∨ (∃ r ∈ rows, r.length = 0)
        ∨ ∃ r ∈ rows, ∃ q ∈ rows, r.length ≠ q.length := by
  by_cases h0 : rows = []
  · subst h0
    simp [from_rows]
  · have hne : rows.isEmpty = false := by
      cases rows with
      | nil => exact absurd rfl h0
      | cons r rest => rfl
    have hmapne : rows.map List.length ≠ [] := by
      simp [List.map_eq_nil_iff, h0]
    by_cases h1 : (0 : Nat) ∈ (rows.map List.length).toFinset
    · have hzero : ∃ r ∈ rows, r.length = 0 := by
        rw [List.mem_toFinset, List.mem_map] at h1
        obtain ⟨r, hr, hlen⟩ := h1
        exact ⟨r, hr, hlen⟩
      have herr : from_rows rows = .error "Board rows must contain at least one gem." := by
        simp [from_rows, hne, h1]
      exact ⟨fun _ => Or.inr (Or.inl hzero), fun _ => ⟨_, herr⟩⟩
    · by_cases h2 : (rows.map List.length).toFinset.card = 1
      · have hok : from_rows rows = .ok rows := by
          simp [from_rows, hne, h1, h2]
        constructor
        · rintro ⟨e, he⟩
          rw [hok] at he
          exact absurd he (by simp)
        · rintro (h | ⟨r, hr, hlen⟩ | ⟨r, hr, q, hq, hne2⟩)
          · exact absurd h h0
          · exact absurd (List.mem_toFinset.mpr (List.mem_map.mpr ⟨r, hr, hlen⟩)) h1
          · have hall := (toFinset_card_eq_one_iff _ hmapne).mp h2
            exact absurd
              (hall r.length (List.mem_map.mpr ⟨r, hr, rfl⟩)
                q.length (List.mem_map.mpr ⟨q, hq, rfl⟩)) hne2
      · have hdiff : ∃ r ∈ rows, ∃ q ∈ rows, r.length ≠ q.length := by
          by_contra hcon
          push_neg at hcon
          refine h2 ((toFinset_card_eq_one_iff _ hmapne).mpr ?_)
          intro a ha c hc
          obtain ⟨r, hr, rfl⟩ := List.mem_map.mp ha
          obtain ⟨q, hq, rfl⟩ := List.mem_map.mp hc
          exact hcon r hr q hq
        have herr : from_rows rows = .error "Board rows must be rectangular." := by
          simp [from_rows, hne, h1, h2]
        exact ⟨fun _ => Or.inr (Or.inr hdiff), fun _ => ⟨_, herr⟩⟩

/-- C3 (counterexample): the claim says a cell that is not a recognized
gem value is rejected, but `from_rows` performs no cell validation and
accepts a row set whose only cell is no gem value at all. -/
theorem from_rows_accepts_invalid_cell :
    isGemValue (none : RawCell) = false
      ∧ from_rows [[(none : RawCell)]] = .ok [[(none : RawCell)]] :=
  ⟨rfl, rfl⟩

lemma markRow_length (ms : Finset (Nat × Nat)) (y : Nat) :
    ∀ (x0 : Nat) (row : List Gem), (markRow ms y x0 row).length = row.length := by
  intro x0 row
  induction row generalizing x0 with
  | nil => rfl
  | cons g rest ih => simp [markRow, ih]

lemma markRow_getD (ms : Finset (Nat × Nat)) (y : Nat) :
    ∀ (x0 i : Nat) (row : List Gem),
      (markRow ms y x0 row).getD i Gem.EMPTY
        = if (x0 + i, y) ∈ ms then Gem.EMPTY else row.getD i Gem.EMPTY := by
  intro x0 i row
  induction row generalizing x0 i with
  | nil => simp [markRow, List.getD]
  | cons g rest ih =>
    cases i with
    | zero => simp [markRow, List.getD_cons_zero]
    | succ j =>
      have harith : x0 + 1 + j = x0 + (j + 1) := by omega
      simp only [markRow, List.getD_cons_succ, ih (x0 + 1) j, harith]

lemma markRows_length (ms : Finset (Nat × Nat)) :
    ∀ (y0 : Nat) (rows : List (List Gem)), (markRows ms y0 rows).length = rows.length := by
  intro y0 rows
  induction rows generalizing y0 with
  | nil => rfl
  | cons row rest ih => simp [markRows, ih]

lemma markRows_getD (ms : Finset (Nat × Nat)) :
    ∀ (y0 y : Nat) (rows : List (List Gem)),
      (markRows ms y0 rows).getD y []
        = markRow ms (y0 + y) 0 (rows.getD y []) := by
  intro y0 y rows
  induction rows generalizing y0 y with
  | nil =>
    simp [markRows, List.getD, markRow]
  | cons row rest ih =>
    cases y with
    | zero => simp [markRows, List.getD_cons_zero]
    | succ j =>
      have harith : y0 + 1 + j = y0 + (j + 1) := by omega
      simp only [markRows, List.getD_cons_succ, ih (y0 + 1) j, harith]

lemma markRow_empty (y : Nat) :
    ∀ (x0 : Nat) (row : List Gem), markRow (∅ : Finset (Nat × Nat)) y x0 row = row := by
  intro x0 row
  induction row generalizing x0 with
  | nil => rfl
  | cons g rest ih => simp [markRow, ih]

lemma markRows_empty :
    ∀ (y0 : Nat) (rows : List (List Gem)), markRows (∅ : Finset (Nat × Nat)) y0 rows = rows := by
  intro y0 rows
  induction rows generalizing y0 with
  | nil => rfl
  | cons row rest ih => simp [markRows, markRow_empty, ih]

lemma headD_eq_getD_zero (l : List (List Gem)) : l.headD [] = l.getD 0 [] := by
  cases l <;> rfl

/-- C1: with all coordinates in bounds, `remove_matches` succeeds,
keeps the dimensions, makes every match-set cell EMPTY and copies every
other cell unchanged; with the empty match set it returns a board
structurally equal to the input; with an out-of-bounds coordinate it
fails. -/
theorem remove_matches_spec (b : Board) (ms : Finset (Nat × Nat)) :
    ((∀ p ∈ ms, p.1 < b.width ∧ p.2 < b.height) →
      ∃ b2, remove_matches b ms = .ok b2
        ∧ b2.width = b.width ∧ b2.height = b.height
        ∧ ∀ x y, x < b.width → y < b.height →
            b2.get x y = if (x, y) ∈ ms then Gem.EMPTY else b.get x y)
    ∧ (ms = ∅ → remove_matches b ms = .ok b)
    ∧ ((¬∀ p ∈ ms, p.1 < b.width ∧ p.2 < b.height) →
        ∃ e, remove_matches b ms = .error e) := by
  refine ⟨?_, ?_, ?_⟩
  · intro h
    refine ⟨⟨markRows ms 0 b.rows⟩, ?_, ?_, ?_, ?_⟩
    · unfold remove_matches
      rw [if_pos h]
    · show ((markRows ms 0 b.rows).headD []).length = b.width
      rw [headD_eq_getD_zero, markRows_getD, markRow_length, Board.width,
        headD_eq_getD_zero]
    · exact markRows_length ms 0 b.rows
    · intro x y hx hy
      show ((markRows ms 0 b.rows).getD y []).getD x Gem.EMPTY = _
      rw [markRows_getD, markRow_getD]
      simp only [Nat.zero_add]
      rfl
  · intro h
    subst h
    unfold remove_matches
    rw [if_pos (by simp)]
    rw [markRows_empty]
  · intro h
    unfold remove_matches
    rw [if_neg h]
    exact ⟨_, rfl⟩

lemma getD_map_range {α : Type} (f : Nat → α) (n i : Nat) (d : α) (h : i < n) :
    ((List.range n).map f).getD i d = f i := by
  rw [List.getD_eq_getElem _ _ (by simpa using h)]
  simp

lemma map_range_getD {α : Type} (l : List α) (d : α) :
    (List.range l.length).map (fun i => l.getD i d) = l := by
  apply List.ext_getElem
  · simp
  · intro n h1 h2
    simp only [List.getElem_map, List.getElem_range]
    exact List.getD_eq_getElem l d h2

lemma column_length (b : Board) (x : Nat) : (b.column x).length = b.height := by
  simp [Board.column, Board.height]

lemma length_gravityColumn (h : Nat) (col : List Gem) (hcol : col.length = h) :
    (gravityColumn h col).length = h := by
  unfold gravityColumn
  have hle : (col.filter (fun g => decide (g ≠ Gem.EMPTY))).length ≤ h :=
    hcol ▸ List.length_filter_le _ _
  simp only [List.length_append, List.length_replicate]
  omega

lemma apply_gravity_height (b : Board) : (apply_gravity b).height = b.height := by
  simp [apply_gravity, Board.height]

lemma mk_grid_width (b : Board) (f : Nat → Nat → Gem) :
    (Board.mk ((List.range b.height).map
      (fun y => (List.range b.width).map (f y)))).width = b.width := by
  cases hr : b.rows with
  | nil =>
    simp [Board.width, Board.height, hr]
  | cons r rest =>
    have hh : b.height = rest.length + 1 := by simp [Board.height, hr]
    simp [Board.width, hh, List.range_succ_eq_map]

lemma apply_gravity_width (b : Board) : (apply_gravity b).width = b.width := by
  show (Board.mk ((List.range b.height).map
    (fun y => (List.range b.width).map
      (fun x => ((((List.range b.width).map
        (fun x2 => gravityColumn b.height (b.column x2))).getD x []).getD y Gem.EMPTY))))).width
    = b.width
  exact mk_grid_width b _

lemma column_apply_gravity (b : Board) (x : Nat) (hx : x < b.width) :
    (apply_gravity b).column x = gravityColumn b.height (b.column x) := by
  have hlen : (gravityColumn b.height (b.column x)).length = b.height :=
    length_gravityColumn _ _ (column_length b x)
  show ((List.range b.height).map
      (fun y => (List.range b.width).map
        (fun x2 => ((((List.range b.width).map
          (fun x3 => gravityColumn b.height (b.column x3))).getD x2 []).getD y Gem.EMPTY)))).map
      (fun row => row.getD x Gem.EMPTY)
    = gravityColumn b.height (b.column x)
  rw [List.map_map]
  have hstep : ∀ y ∈ List.range b.height,
      ((fun row => row.getD x Gem.EMPTY) ∘
        (fun y2 => (List.range b.width).map
          (fun x2 => ((((List.range b.width).map
            (fun x3 => gravityColumn b.height (b.column x3))).getD x2 []).getD y2 Gem.EMPTY)))) y
        = (gravityColumn b.height (b.column x)).getD y Gem.EMPTY := by
    intro y _
    simp only [Function.comp]
    rw [getD_map_range _ _ _ _ hx, getD_map_range _ _ _ _ hx]
  rw [List.map_congr_left hstep]
  calc ((List.range b.height).map
        (fun y => (gravityColumn b.height (b.column x)).getD y Gem.EMPTY))
      = (List.range (gravityColumn b.height (b.column x)).length).map
        (fun y => (gravityColumn b.height (b.column x)).getD y Gem.EMPTY) := by rw [hlen]
    _ = gravityColumn b.height (b.column x) := map_range_getD _ _

lemma filter_ne_empty_replicate (n : Nat) :
    (List.replicate n Gem.EMPTY).filter (fun g => decide (g ≠ Gem.EMPTY)) = [] := by
  induction n with
  | zero => rfl
  | succ k ih => simp [List.replicate_succ, ih]

lemma filter_ne_empty_idem (col : List Gem) :
    (col.filter (fun g => decide (g ≠ Gem.EMPTY))).filter (fun g => decide (g ≠ Gem.EMPTY))
      = col.filter (fun g => decide (g ≠ Gem.EMPTY)) :=
  List.filter_eq_self.mpr (fun a ha => (List.mem_filter.mp ha).2)

lemma gravityColumn_idem (h : Nat) (col : List Gem) :
    gravityColumn h (gravityColumn h col) = gravityColumn h col := by
  simp only [gravityColumn]
  rw [List.filter_append, filter_ne_empty_replicate, filter_ne_empty_idem]
  simp

lemma apply_gravity_eq_of (b1 b2 : Board) (hh : b1.height = b2.height)
    (hw : b1.width = b2.width)
    (hc : ∀ x, x < b2.width →
      gravityColumn b2.height (b1.column x) = gravityColumn b2.height (b2.column x)) :
    apply_gravity b1 = apply_gravity b2 := by
  simp only [apply_gravity]
  rw [hh, hw]
  have hcols : ((List.range b2.width).map
      (fun x => gravityColumn b2.height (b1.column x)))
      = (List.range b2.width).map (fun x => gravityColumn b2.height (b2.column x)) :=
    List.map_congr_left (fun x hx => hc x (List.mem_range.mp hx))
  rw [hcols]

/-- C8: applying gravity twice gives the same board as applying it
once. -/
theorem apply_gravity_idempotent (b : Board) :
    apply_gravity (apply_gravity b) = apply_gravity b := by
  apply apply_gravity_eq_of
  · exact apply_gravity_height b
  · exact apply_gravity_width b
  · intro x hx
    rw [column_apply_gravity b x hx, gravityColumn_idem]

/-- C7: per column, `apply_gravity` keeps the non-EMPTY cells in their
original top-to-bottom order starting at row 0 and pads the bottom of
the column with EMPTY; a column with no empties is unchanged, a fully
empty column stays fully empty, and the single-column board
[[EMPTY],[RED],[BLUE]] becomes [[RED],[BLUE],[EMPTY]]. -/
theorem apply_gravity_columns (b : Board) :
    (∀ x, x < b.width →
      (apply_gravity b).column x
        = (b.column x).filter (fun g => decide (g ≠ Gem.EMPTY))
          ++ List.replicate
              (b.height - ((b.column x).filter (fun g => decide (g ≠ Gem.EMPTY))).length)
              Gem.EMPTY)
    ∧ (∀ x, x < b.width →
        (b.column x).all (fun g => decide (g ≠ Gem.EMPTY)) = true →
          (apply_gravity b).column x = b.column x)
    ∧ (∀ x, x < b.width →
        b.column x = List.replicate b.height Gem.EMPTY →
          (apply_gravity b).column x = List.replicate b.height Gem.EMPTY)
    ∧ apply_gravity ⟨[[Gem.EMPTY], [Gem.RED], [Gem.BLUE]]⟩
        = ⟨[[Gem.RED], [Gem.BLUE], [Gem.EMPTY]]⟩ := by
  refine ⟨?_, ?_, ?_, by decide⟩
  · intro x hx
    rw [column_apply_gravity b x hx]
    rfl
  · intro x hx hall
    rw [column_apply_gravity b x hx]
    simp only [gravityColumn]
    rw [List.filter_eq_self.mpr (List.all_eq_true.mp hall)]
    rw [column_length b x, Nat.sub_self]
    simp
  · intro x hx hcol
    rw [column_apply_gravity b x hx]
    simp only [gravityColumn]
    rw [hcol, filter_ne_empty_replicate]
    simp

lemma getD_set_eq {α : Type} (l : List α) (i : Nat) (a d : α) (h : i < l.length) :
    (l.set i a).getD i d = a := by
  rw [List.getD_eq_getElem?_getD, List.getElem?_set_self h]
  rfl

lemma getD_set_ne {α : Type} (l : List α) (i j : Nat) (a d : α) (h : i ≠ j) :
    (l.set i a).getD j d = l.getD j d := by
  rw [List.getD_eq_getElem?_getD, List.getElem?_set_ne h, ← List.getD_eq_getElem?_getD]

lemma set2_length (rows : List (List Gem)) (x y : Nat) (g : Gem) :
    (set2 rows x y g).length = rows.length :=
  List.length_set rows y _

lemma set2_row_length (rows : List (List Gem)) (x y : Nat) (g : Gem) (y2 : Nat) :
    ((set2 rows x y g).getD y2 []).length = (rows.getD y2 []).length := by
  by_cases hy : y = y2
  · subst hy
    by_cases hlen : y < rows.length
    · rw [set2, getD_set_eq _ _ _ _ hlen, List.length_set]
    · rw [set2, List.set_eq_of_length_le (by omega)]
  · rw [set2, getD_set_ne _ _ _ _ _ hy]

lemma get2_set2_eq (rows : List (List Gem)) (x y : Nat) (g : Gem)
    (hy : y < rows.length) (hx : x < (rows.getD y []).length) :
    get2 (set2 rows x y g) x y = g := by
  rw [get2, set2, getD_set_eq _ _ _ _ hy, getD_set_eq _ _ _ _ hx]

lemma get2_set2_ne (rows : List (List Gem)) (x y : Nat) (g : Gem) (x2 y2 : Nat)
    (h : (x2, y2) ≠ (x, y)) :
    get2 (set2 rows x y g) x2 y2 = get2 rows x2 y2 := by
  by_cases hy : y = y2
  · subst hy
    have hx : x ≠ x2 := by
      intro hcon
      exact h (by rw [hcon])
    by_cases hlen : y < rows.length
    · rw [get2, set2, getD_set_eq _ _ _ _ hlen, getD_set_ne _ _ _ _ _ hx]
      rfl
    · rw [get2, set2, List.set_eq_of_length_le (by omega)]
      rfl
  · rw [get2, set2, getD_set_ne _ _ _ _ _ hy]
    rfl

lemma countP_cons_true {α : Type} (p : α → Bool) (a : α) (l : List α) (h : p a = true) :
    (a :: l).countP p = l.countP p + 1 := by
  rw [List.countP_cons, h, if_pos rfl]

lemma countP_cons_false {α : Type} (p : α → Bool) (a : α) (l : List α) (h : p a = false) :
    (a :: l).countP p = l.countP p := by
  rw [List.countP_cons, h]
  simp

lemma refillGo_ok (b : Board) (s : Nat → Gem) (hs : ∀ m, s m ≠ Gem.EMPTY) :
    ∀ (l : List (Nat × Nat)) (rows : List (List Gem)) (n : Nat),
      l.Nodup →
      (∀ p ∈ l, p.2 < rows.length ∧ p.1 < (rows.getD p.2 []).length) →
      ∃ rows2,
        refillGo b s l rows n
          = .ok (rows2, n + l.countP (fun q => decide (b.get q.1 q.2 = Gem.EMPTY)))
        ∧ rows2.length = rows.length
        ∧ (∀ y, (rows2.getD y []).length = (rows.getD y []).length)
        ∧ (∀ x y, (x, y) ∉ l → get2 rows2 x y = get2 rows x y)
        ∧ (∀ x y, (x, y) ∈ l →
            get2 rows2 x y
              = if b.get x y = Gem.EMPTY
                then s (n + (l.takeWhile (fun q => decide (q ≠ (x, y)))).countP
                  (fun q => decide (b.get q.1 q.2 = Gem.EMPTY)))
                else get2 rows x y) := by
  intro l
  induction l with
  | nil =>
    intro rows n _ _
    exact ⟨rows, by simp [refillGo], rfl, fun _ => rfl, fun _ _ _ => rfl,
      fun x y h => absurd h (List.not_mem_nil _)⟩
  | cons hd tl ih =>
    obtain ⟨a, c⟩ := hd
    intro rows n hnodup hbounds
    have hnd := List.nodup_cons.mp hnodup
    have hbhd := hbounds (a, c) (List.mem_cons_self _ _)
    by_cases hcell : b.get a c = Gem.EMPTY
    · have hsn : ¬s n = Gem.EMPTY := hs n
      have hstep : refillGo b s ((a, c) :: tl) rows n
          = refillGo b s tl (set2 rows a c (s n)) (n + 1) := by
        simp [refillGo, hcell, hsn]
      have hb1 : ∀ p ∈ tl, p.2 < (set2 rows a c (s n)).length
          ∧ p.1 < ((set2 rows a c (s n)).getD p.2 []).length := by
        intro p hp
        have hb2 := hbounds p (List.mem_cons_of_mem _ hp)
        exact ⟨by rw [set2_length]; exact hb2.1, by rw [set2_row_length]; exact hb2.2⟩
      obtain ⟨rows2, heq, hlen, hrowlen, hout, hin⟩ :=
        ih (set2 rows a c (s n)) (n + 1) hnd.2 hb1
      refine ⟨rows2, ?_, ?_, ?_, ?_, ?_⟩
      · rw [hstep, heq]
        have hcount : n + ((a, c) :: tl).countP (fun q => decide (b.get q.1 q.2 = Gem.EMPTY))
            = n + 1 + tl.countP (fun q => decide (b.get q.1 q.2 = Gem.EMPTY)) := by
          rw [countP_cons_true _ _ _ (by simp [hcell])]
          omega
        rw [hcount]
      · rw [hlen, set2_length]
      · intro y
        rw [hrowlen y, set2_row_length]
      · intro x y hxy
        have hne : (x, y) ≠ (a, c) := fun hcon => hxy (hcon ▸ List.mem_cons_self _ _)
        have hnin : (x, y) ∉ tl := fun hcon => hxy (List.mem_cons_of_mem _ hcon)
        rw [hout x y hnin, get2_set2_ne _ _ _ _ _ _ hne]
      · intro x y hxy
        rcases List.mem_cons.mp hxy with heq2 | htl
        · obtain ⟨hxa, hyc⟩ := Prod.mk.injEq .. ▸ heq2
          subst hxa
          subst hyc
          rw [hout x y hnd.1, get2_set2_eq _ _ _ _ hbhd.1 hbhd.2, if_pos hcell,
            List.takeWhile_cons]
          simp
        · have hne : (x, y) ≠ (a, c) := fun hcon => hnd.1 (hcon ▸ htl)
          rw [hin x y htl]
          by_cases hcell2 : b.get x y = Gem.EMPTY
          · rw [if_pos hcell2, if_pos hcell2]
            congr 1
            have hdec : decide ((a, c) ≠ (x, y)) = true := by
              rw [decide_eq_true_eq]
              intro hcon
              exact hne hcon.symm
            rw [List.takeWhile_cons, if_pos hdec,
              countP_cons_true _ _ _ (by simp [hcell])]
            omega
          · rw [if_neg hcell2, if_neg hcell2, get2_set2_ne _ _ _ _ _ _ hne]
    · have hstep : refillGo b s ((a, c) :: tl) rows n = refillGo b s tl rows n := by
        simp [refillGo, hcell]
      obtain ⟨rows2, heq, hlen, hrowlen, hout, hin⟩ :=
        ih rows n hnd.2 (fun p hp => hbounds p (List.mem_cons_of_mem _ hp))
      refine ⟨rows2, ?_, hlen, hrowlen, ?_, ?_⟩
      · rw [hstep, heq]
        have hcount : n + ((a, c) :: tl).countP (fun q => decide (b.get q.1 q.2 = Gem.EMPTY))
            = n + tl.countP (fun q => decide (b.get q.1 q.2 = Gem.EMPTY)) := by
          rw [countP_cons_false _ _ _ (by simp [hcell])]
        rw [hcount]
      · intro x y hxy
        exact hout x y (fun hcon => hxy (List.mem_cons_of_mem _ hcon))
      · intro x y hxy
        rcases List.mem_cons.mp hxy with heq2 | htl
        · obtain ⟨hxa, hyc⟩ := Prod.mk.injEq .. ▸ heq2
          subst hxa
          subst hyc
          rw [hout x y hnd.1, if_neg hcell]
        · have hne : (x, y) ≠ (a, c) := fun hcon => hnd.1 (hcon ▸ htl)
          rw [hin x y htl]
          by_cases hcell2 : b.get x y = Gem.EMPTY
          · rw [if_pos hcell2, if_pos hcell2]
            congr 1
            have hdec : decide ((a, c) ≠ (x, y)) = true := by
              rw [decide_eq_true_eq]
              intro hcon
              exact hne hcon.symm
            rw [List.takeWhile_cons, if_pos hdec,
              countP_cons_false _ _ _ (by simp [hcell])]
          · rw [if_neg hcell2, if_neg hcell2]

lemma refillGo_error_iff (b : Board) (s : Nat → Gem) :
    ∀ (l : List (Nat × Nat)) (rows : List (List Gem)) (n : Nat),
      (∃ e, refillGo b s l rows n = .error e)
        ↔ ∃ k, k < l.countP (fun q => decide (b.get q.1 q.2 = Gem.EMPTY))
            ∧ s (n + k) = Gem.EMPTY := by
  intro l
  induction l with
  | nil =>
    intro rows n
    simp [refillGo]
  | cons hd tl ih =>
    obtain ⟨a, c⟩ := hd
    intro rows n
    by_cases hcell : b.get a c = Gem.EMPTY
    · have hcount : ((a, c) :: tl).countP (fun q => decide (b.get q.1 q.2 = Gem.EMPTY))
          = tl.countP (fun q => decide (b.get q.1 q.2 = Gem.EMPTY)) + 1 := by
        rw [List.countP_cons]
        simp [hcell]
      by_cases hsn : s n = Gem.EMPTY
      · have hstep : refillGo b s ((a, c) :: tl) rows n
            = .error "gem_supplier() returned GemType.EMPTY during refill." := by
          simp [refillGo, hcell, hsn]
        rw [hcount]
        constructor
        · intro _
          exact ⟨0, by omega, by simpa using hsn⟩
        · intro _
          exact ⟨_, hstep⟩
      · have hstep : refillGo b s ((a, c) :: tl) rows n
            = refillGo b s tl (set2 rows a c (s n)) (n + 1) := by
          simp [refillGo, hcell, hsn]
        rw [hstep, ih, hcount]
        constructor
        · rintro ⟨k, hk, hke⟩
          exact ⟨k + 1, by omega, by rw [show n + (k + 1) = n + 1 + k by omega]; exact hke⟩
        · rintro ⟨k, hk, hke⟩
          cases k with
          | zero => exact absurd (by simpa using hke) hsn
          | succ j =>
            exact ⟨j, by omega, by rw [show n + 1 + j = n + (j + 1) by omega]; exact hke⟩
    · have hstep : refillGo b s ((a, c) :: tl) rows n = refillGo b s tl rows n := by
        simp [refillGo, hcell]
      have hcount : ((a, c) :: tl).countP (fun q => decide (b.get q.1 q.2 = Gem.EMPTY))
          = tl.countP (fun q => decide (b.get q.1 q.2 = Gem.EMPTY)) :=
        countP_cons_false _ _ _ (by simp [hcell])
      rw [hstep, ih, hcount]

lemma countP_flatMap {α β : Type} (p : β → Bool) (f : α → List β) :
    ∀ l : List α, (l.flatMap f).countP p = (l.map (fun a => (f a).countP p)).sum := by
  intro l
  induction l with
  | nil => rfl
  | cons a tl ih => simp [List.flatMap_cons, List.countP_append, ih]

lemma countP_eq_sum_map {α : Type} (p : α → Bool) (l : List α) :
    l.countP p = (l.map (fun a => if p a then 1 else 0)).sum := by
  induction l with
  | nil => rfl
  | cons a tl ih =>
    rw [List.countP_cons, List.map_cons, List.sum_cons, ih]
    omega

lemma sum_map_getD {α : Type} (g : α → Nat) (d : α) (l : List α) :
    (l.map g).sum = ∑ i in Finset.range l.length, g (l.getD i d) := by
  induction l with
  | nil => simp
  | cons a tl ih =>
    rw [List.map_cons, List.sum_cons, List.length_cons, Finset.sum_range_succ']
    simp only [List.getD_cons_succ, List.getD_cons_zero]
    rw [← ih]
    omega

lemma sum_map_range_list (f : Nat → Nat) (n : Nat) :
    ((List.range n).map f).sum = ∑ i in Finset.range n, f i := by
  induction n with
  | zero => rfl
  | succ k ih =>
    rw [List.range_succ, List.map_append, List.sum_append, Finset.sum_range_succ, ih]
    simp

lemma rect_row_length (b : Board) (hb : b.Rect) (y : Nat) (hy : y < b.height) :
    (b.rows.getD y []).length = b.width := by
  obtain ⟨-, -, hall⟩ := hb
  rw [List.getD_eq_getElem _ _ hy]
  exact hall _ (List.getElem_mem _)

lemma countP_refillOrder (b : Board) (hb : b.Rect) :
    (refillOrder b.width b.height).countP (fun q => decide (b.get q.1 q.2 = Gem.EMPTY))
      = countEmpty b := by
  have hinner : ∀ x, (((List.range b.height).reverse).map (fun y => (x, y))).countP
      (fun q => decide (b.get q.1 q.2 = Gem.EMPTY))
      = ∑ y in Finset.range b.height, (if b.get x y = Gem.EMPTY then 1 else 0) := by
    intro x
    rw [List.countP_map, List.countP_reverse, countP_eq_sum_map, sum_map_range_list]
    apply Finset.sum_congr rfl
    intro y _
    simp [Function.comp]
  have hL : (refillOrder b.width b.height).countP (fun q => decide (b.get q.1 q.2 = Gem.EMPTY))
      = ∑ x in Finset.range b.width, ∑ y in Finset.range b.height,
          (if b.get x y = Gem.EMPTY then 1 else 0) := by
    rw [refillOrder, countP_flatMap, List.map_congr_left (fun x _ => hinner x),
      sum_map_range_list]
  have hR : countEmpty b
      = ∑ y in Finset.range b.height, ∑ x in Finset.range b.width,
          (if b.get x y = Gem.EMPTY then 1 else 0) := by
    rw [countEmpty, sum_map_getD _ ([] : List Gem)]
    apply Finset.sum_congr rfl
    intro y hy
    rw [countP_eq_sum_map, sum_map_getD _ Gem.EMPTY,
      rect_row_length b hb y (Finset.mem_range.mp hy)]
    apply Finset.sum_congr rfl
    intro x _
    simp [Board.get]
  rw [hL, hR, Finset.sum_comm]

lemma mem_refillOrder (w h : Nat) (p : Nat × Nat) :
    p ∈ refillOrder w h ↔ p.1 < w ∧ p.2 < h := by
  obtain ⟨a, c⟩ := p
  simp only [refillOrder, List.mem_flatMap, List.mem_map, List.mem_reverse, List.mem_range]
  constructor
  · rintro ⟨x, hx, y, hy, hp⟩
    obtain ⟨hxa, hyc⟩ := Prod.mk.injEq .. ▸ hp
    subst hxa
    subst hyc
    exact ⟨hx, hy⟩
  · rintro ⟨ha, hc⟩
    exact ⟨a, ha, c, hc, rfl⟩

lemma refillOrder_nodup (w h : Nat) : (refillOrder w h).Nodup := by
  rw [refillOrder, List.nodup_flatMap]
  constructor
  · intro x _
    apply List.Nodup.map
    · intro y1 y2 hyy
      simpa using hyy
    · exact List.nodup_reverse.mpr (List.nodup_range h)
  · have hpw : (List.range w).Pairwise (· ≠ ·) := List.nodup_range w
    refine hpw.imp ?_
    intro x1 x2 hne
    simp only [Function.onFun]
    intro p hp1 hp2
    simp only [List.mem_map] at hp1 hp2
    obtain ⟨y1, _, hpy1⟩ := hp1
    obtain ⟨y2, _, hpy2⟩ := hp2
    apply hne
    have hpp := hpy1.trans hpy2.symm
    exact (Prod.mk.injEq .. ▸ hpp).1

/-- C5: with a supplier that never yields EMPTY, the transform `refill_board`
succeeds, makes exactly one supplier call per EMPTY cell of the input,
and fills each EMPTY cell with the stream value at its position in the
bottom-to-top, left-to-right traversal, leaving every non-EMPTY cell
unchanged. -/
theorem refill_board_spec (b : Board) (s : Nat → Gem) (hb : b.Rect)
    (hs : ∀ m, s m ≠ Gem.EMPTY) :
    ∃ b2, refill_board b s 0 = .ok (b2, countEmpty b)
      ∧ b2.width = b.width ∧ b2.height = b.height
      ∧ ∀ x y, x < b.width → y < b.height →
          b2.get x y
            = if b.get x y = Gem.EMPTY then s (emptiesBefore b x y) else b.get x y := by
  have hnodup : (refillOrder b.width b.height).Nodup := refillOrder_nodup _ _
  have hbounds : ∀ p ∈ refillOrder b.width b.height,
      p.2 < b.rows.length ∧ p.1 < (b.rows.getD p.2 []).length := by
    intro p hp
    have hm := (mem_refillOrder _ _ p).mp hp
    refine ⟨hm.2, ?_⟩
    rw [rect_row_length b hb p.2 hm.2]
    exact hm.1
  obtain ⟨rows2, heq, hlen, hrowlen, hout, hin⟩ :=
    refillGo_ok b s hs _ b.rows 0 hnodup hbounds
  refine ⟨⟨rows2⟩, ?_, ?_, ?_, ?_⟩
  · rw [refill_board, heq]
    simp [countP_refillOrder b hb, Except.map]
  · show (rows2.headD []).length = (b.rows.headD []).length
    rw [headD_eq_getD_zero, headD_eq_getD_zero, hrowlen 0]
  · exact hlen
  · intro x y hx hy
    have hmem : (x, y) ∈ refillOrder b.width b.height :=
      (mem_refillOrder _ _ _).mpr ⟨hx, hy⟩
    have hcell := hin x y hmem
    simpa [Board.get, get2, emptiesBefore] using hcell

/-- C6: the transform `refill_board` fails exactly when the supplier stream yields
EMPTY at one of the positions consumed for the EMPTY cells of the
input; on failure no board is produced (the input value is untouched),
and on [[EMPTY]] with a constantly-EMPTY supplier it fails with the
supplier-contract-violation error. -/
theorem refill_board_error_iff (b : Board) (s : Nat → Gem) (hb : b.Rect) :
    ((∃ e, refill_board b s 0 = .error e) ↔ ∃ k, k < countEmpty b ∧ s k = Gem.EMPTY)
    ∧ refill_board ⟨[[Gem.EMPTY]]⟩ (fun _ => Gem.EMPTY) 0
        = .error "gem_supplier() returned GemType.EMPTY during refill." := by
  constructor
  · have base := refillGo_error_iff b s (refillOrder b.width b.height) b.rows 0
    rw [countP_refillOrder b hb] at base
    simp only [Nat.zero_add] at base
    have hrel : (∃ e, refill_board b s 0 = .error e)
        ↔ (∃ e, refillGo b s (refillOrder b.width b.height) b.rows 0 = .error e) := by
      rw [refill_board]
      cases hgo : refillGo b s (refillOrder b.width b.height) b.rows 0 with
      | ok v => simp [Except.map]
      | error e => simp [Except.map]
    rw [hrel]
    exact base
  · rfl

lemma refillGo_shape (b : Board) (s : Nat → Gem) :
    ∀ (l : List (Nat × Nat)) (rows : List (List Gem)) (n : Nat)
      (rows2 : List (List Gem)) (n2 : Nat),
      refillGo b s l rows n = .ok (rows2, n2) →
      rows2.length = rows.length
        ∧ ∀ y, (rows2.getD y []).length = (rows.getD y []).length := by
  intro l
  induction l with
  | nil =>
    intro rows n rows2 n2 h
    simp only [refillGo, Except.ok.injEq, Prod.mk.injEq] at h
    obtain ⟨h1, -⟩ := h
    subst h1
    exact ⟨rfl, fun _ => rfl⟩
  | cons hd tl ih =>
    obtain ⟨a, c⟩ := hd
    intro rows n rows2 n2 h
    by_cases hcell : b.get a c = Gem.EMPTY
    · by_cases hsn : s n = Gem.EMPTY
      · simp [refillGo, hcell, hsn] at h
      · have hstep : refillGo b s ((a, c) :: tl) rows n
            = refillGo b s tl (set2 rows a c (s n)) (n + 1) := by
          simp [refillGo, hcell, hsn]
        rw [hstep] at h
        obtain ⟨h1, h2⟩ := ih _ _ _ _ h
        exact ⟨by rw [h1, set2_length], fun y => by rw [h2 y, set2_row_length]⟩
    · have hstep : refillGo b s ((a, c) :: tl) rows n = refillGo b s tl rows n := by
        simp [refillGo, hcell]
      rw [hstep] at h
      exact ih _ _ _ _ h

lemma apply_swap_height (b : Board) (sw : Swap) : (apply_swap b sw).height = b.height := by
  simp [apply_swap, Board.height]

lemma apply_swap_width (b : Board) (sw : Swap) : (apply_swap b sw).width = b.width := by
  show (Board.mk ((List.range b.height).map
    (fun y => (List.range b.width).map
      (fun x =>
        if (x, y) = sw.1 then b.get sw.2.1 sw.2.2
        else if (x, y) = sw.2 then b.get sw.1.1 sw.1.2
        else b.get x y)))).width = b.width
  exact mk_grid_width b _

/-- C10: the transform `apply_gravity`, a successful `refill_board`, and the swap
application primitive all preserve the board dimensions. -/
theorem transforms_preserve_dims (b : Board) (s : Nat → Gem) (n : Nat)
    (b2 : Board) (n2 : Nat) (sw : Swap)
    (href : refill_board b s n = .ok (b2, n2)) :
    ((apply_gravity b).width = b.width ∧ (apply_gravity b).height = b.height)
    ∧ (b2.width = b.width ∧ b2.height = b.height)
    ∧ ((apply_swap b sw).width = b.width ∧ (apply_swap b sw).height = b.height) := by
  refine ⟨⟨apply_gravity_width b, apply_gravity_height b⟩, ?_,
    apply_swap_width b sw, apply_swap_height b sw⟩
  rw [refill_board] at href
  cases hgo : refillGo b s (refillOrder b.width b.height) b.rows n with
  | error e =>
    rw [hgo] at href
    simp [Except.map] at href
  | ok v =>
    rw [hgo] at href
    obtain ⟨rows2, m⟩ := v
    simp only [Except.map, Except.ok.injEq, Prod.mk.injEq] at href
    obtain ⟨hb2, -⟩ := href
    subst hb2
    obtain ⟨h1, h2⟩ := refillGo_shape b s _ _ _ _ _ hgo
    constructor
    · show (rows2.headD []).length = (b.rows.headD []).length
      rw [headD_eq_getD_zero, headD_eq_getD_zero, h2 0]
    · exact h1

/-- C4: on a board with no matches and no EMPTY cells the cascade loop
returns at once: the result is structurally equal to the input and the
supplier call counter is unchanged (zero supplier invocations). -/
theorem resolve_cascades_stable (b : Board) (s : Nat → Gem) (fuel n : Nat)
    (hm : find_matches b = ∅) (he : hasEmpty b = false) (hf : 0 < fuel) :
    resolve_cascades s fuel b n = some (.ok (b, n)) := by
  cases fuel with
  | zero => exact absurd hf (by simp)
  | succ f =>
    simp only [resolve_cascades]
    rw [if_pos hm, if_neg (by rw [he]; exact Bool.false_ne_true)]

theorem resolve_cascades_stable_witness :
    find_matches ⟨[[Gem.RED, Gem.BLUE], [Gem.BLUE, Gem.RED]]⟩ = ∅
      ∧ hasEmpty ⟨[[Gem.RED, Gem.BLUE], [Gem.BLUE, Gem.RED]]⟩ = false
      ∧ resolve_cascades (fun _ => Gem.RED) 1 ⟨[[Gem.RED, Gem.BLUE], [Gem.BLUE, Gem.RED]]⟩ 0
          = some (.ok (⟨[[Gem.RED, Gem.BLUE], [Gem.BLUE, Gem.RED]]⟩, 0)) :=
  ⟨by decide, by rfl,
    resolve_cascades_stable ⟨[[Gem.RED, Gem.BLUE], [Gem.BLUE, Gem.RED]]⟩
      (fun _ => Gem.RED) 1 0 (by decide) (by rfl) (by decide)⟩

/-- C2 (amended): whenever the cascade loop does return a board, that
board has no EMPTY cells and no matches; termination itself does not
hold for every EMPTY-free supplier (see the divergence
counterexample). -/
theorem resolve_cascades_partial_correct (s : Nat → Gem) (fuel : Nat) :
    ∀ (b : Board) (n : Nat) (b2 : Board) (n2 : Nat),
      resolve_cascades s fuel b n = some (.ok (b2, n2)) →
      hasEmpty b2 = false ∧ find_matches b2 = ∅
        ∧ ∀ row ∈ b2.rows, ∀ g ∈ row, g ≠ Gem.EMPTY := by
  induction fuel with
  | zero =>
    intro b n b2 n2 h
    simp [resolve_cascades] at h
  | succ f ih =>
    intro b n b2 n2 h
    simp only [resolve_cascades] at h
    by_cases hm : find_matches b = ∅
    · rw [if_pos hm] at h
      by_cases he : hasEmpty b = true
      · rw [if_pos he] at h
        split at h
        · simp at h
        · exact ih _ _ _ _ h
      · rw [if_neg he] at h
        have hpair : b2 = b ∧ n2 = n := by
          simp only [Option.some.injEq, Except.ok.injEq, Prod.mk.injEq] at h
          exact ⟨h.1.symm, h.2.symm⟩
        obtain ⟨hb2, hn2⟩ := hpair
        rw [hb2]
        have hef : hasEmpty b = false := by
          cases hhe : hasEmpty b
          · rfl
          · exact absurd hhe he
        refine ⟨hef, hm, ?_⟩
        intro row hrow g hg hcon
        subst hcon
        have hcontra : hasEmpty b = true := by
          rw [hasEmpty, List.any_eq_true]
          exact ⟨row, hrow, by rw [List.any_eq_true]; exact ⟨Gem.EMPTY, hg, by simp⟩⟩
        rw [hef] at hcontra
        exact Bool.false_ne_true hcontra
    · rw [if_neg hm] at h
      split at h
      · simp at h
      · split at h
        · simp at h
        · exact ih _ _ _ _ h

theorem resolve_cascades_partial_correct_witness :
    hasEmpty ⟨[[Gem.RED, Gem.BLUE], [Gem.BLUE, Gem.RED]]⟩ = false
      ∧ find_matches ⟨[[Gem.RED, Gem.BLUE], [Gem.BLUE, Gem.RED]]⟩ = ∅
      ∧ ∀ row ∈ (Board.mk [[Gem.RED, Gem.BLUE], [Gem.BLUE, Gem.RED]]).rows,
          ∀ g ∈ row, g ≠ Gem.EMPTY :=
  resolve_cascades_partial_correct (fun _ => Gem.RED) 1
    ⟨[[Gem.RED, Gem.BLUE], [Gem.BLUE, Gem.RED]]⟩ 0
    ⟨[[Gem.RED, Gem.BLUE], [Gem.BLUE, Gem.RED]]⟩ 0 (by rfl)

/-- C2 (counterexample): with the constantly-RED supplier, which never
yields EMPTY, the cascade loop on [[RED,RED,RED]] reproduces the same
board every iteration and runs forever - it returns within no fuel
bound - so `resolve_cascades` does not terminate for every board and
every EMPTY-free supplier. -/
theorem resolve_cascades_diverges :
    (∀ m, constRED m ≠ Gem.EMPTY)
      ∧ ∀ fuel n, resolve_cascades constRED fuel rrrBoard n = none := by
  constructor
  · intro m
    simp [constRED]
  · intro fuel
    induction fuel with
    | zero =>
      intro n
      rfl
    | succ f ih =>
      intro n
      have hstep : resolve_cascades constRED (f + 1) rrrBoard n
          = resolve_cascades constRED f rrrBoard (n + 3) := rfl
      rw [hstep]
      exact ih (n + 3)

lemma flatMap_congr_left {α β : Type} (l : List α) (f g : α → List β)
    (h : ∀ a ∈ l, f a = g a) : l.flatMap f = l.flatMap g := by
  induction l with
  | nil => rfl
  | cons a tl ih =>
    rw [List.flatMap_cons, List.flatMap_cons, h a (List.mem_cons_self _ _),
      ih (fun x hx => h x (List.mem_cons_of_mem _ hx))]

lemma enumerate_swaps_eq_spec (b : Board)
    (hne : ∀ x, x < b.width → ∀ y, y < b.height → b.get x y ≠ Gem.EMPTY) :
    enumerate_swaps b = specSwapOrder b.width b.height := by
  rw [enumerate_swaps, specSwapOrder]
  apply flatMap_congr_left
  intro y hy
  have hy2 := List.mem_range.mp hy
  apply flatMap_congr_left
  intro x hx
  have hx2 := List.mem_range.mp hx
  rw [if_neg (hne x hx2 y hy2), enumerate_adjacent_swaps]
  congr 1
  · by_cases hr : x + 1 < b.width
    · rw [if_pos ⟨by simp [in_bounds, hr, hy2], hne (x + 1) hr y hy2⟩, if_pos hr]
    · rw [if_neg ?_, if_neg hr]
      rintro ⟨h1, -⟩
      simp only [in_bounds, Bool.and_eq_true, decide_eq_true_eq] at h1
      exact hr h1.1
  · by_cases hd : y + 1 < b.height
    · rw [if_pos ⟨by simp [in_bounds, hd, hx2], hne x hx2 (y + 1) hd⟩, if_pos hd]
    · rw [if_neg ?_, if_neg hd]
      rintro ⟨h1, -⟩
      simp only [in_bounds, Bool.and_eq_true, decide_eq_true_eq] at h1
      exact hd h1.2

lemma sum_ite_succ_lt (n c : Nat) :
    (∑ i in Finset.range n, (if i + 1 < n then c else 0)) = (n - 1) * c := by
  have hite : ∀ i, (if i + 1 < n then c else 0) = c * (if i + 1 < n then 1 else 0) := by
    intro i
    split <;> simp
  calc (∑ i in Finset.range n, (if i + 1 < n then c else 0))
      = ∑ i in Finset.range n, c * (if i + 1 < n then 1 else 0) :=
        Finset.sum_congr rfl (fun i _ => hite i)
    _ = c * ∑ i in Finset.range n, ((if i + 1 < n then 1 else 0) : Nat) :=
        (Finset.mul_sum _ _ _).symm
    _ = (n - 1) * c := by
        rw [Finset.sum_boole]
        have hfil : Finset.filter (fun i => i + 1 < n) (Finset.range n)
            = Finset.range (n - 1) := by
          ext i
          simp only [Finset.mem_filter, Finset.mem_range]
          omega
        rw [hfil, Finset.card_range]
        simp [Nat.mul_comm]

lemma specSwapOrder_length (w h : Nat) :
    (specSwapOrder w h).length = w * (h - 1) + h * (w - 1) := by
  rw [specSwapOrder, List.length_flatMap]
  have hyline : ∀ y ∈ List.range h, (List.length ∘ (fun y => (List.range w).flatMap
      (fun x => (if x + 1 < w then [((x, y), (x + 1, y))] else [])
        ++ (if y + 1 < h then [((x, y), (x, y + 1))] else [])))) y
      = (w - 1) + (if y + 1 < h then w else 0) := by
    intro y _
    show ((List.range w).flatMap _).length = _
    rw [List.length_flatMap]
    have hx : ∀ x ∈ List.range w, (List.length ∘ (fun x =>
        (if x + 1 < w then [((x, y), (x + 1, y))] else [])
          ++ (if y + 1 < h then [((x, y), (x, y + 1))] else []))) x
        = (if x + 1 < w then 1 else 0) + (if y + 1 < h then 1 else 0) := by
      intro x _
      show ((if x + 1 < w then [((x, y), (x + 1, y))] else [])
          ++ (if y + 1 < h then [((x, y), (x, y + 1))] else [])).length = _
      rw [List.length_append]
      congr 1 <;> split <;> rfl
    rw [List.map_congr_left hx, sum_map_range_list, Finset.sum_add_distrib]
    congr 1
    · rw [sum_ite_succ_lt w 1]
      omega
    · split
      · simp [Finset.sum_const, Finset.card_range]
      · simp
  rw [List.map_congr_left hyline, sum_map_range_list, Finset.sum_add_distrib]
  rw [sum_ite_succ_lt h w]
  simp only [Finset.sum_const, Finset.card_range, smul_eq_mul]
  rw [Nat.mul_comm (h - 1) w]
  omega

lemma mem_adjacent_pair {w h x y : Nat} {sw : Swap}
    (hsw : sw ∈ (if x + 1 < w then [((x, y), (x + 1, y))] else [])
      ++ (if y + 1 < h then [((x, y), (x, y + 1))] else [])) :
    sw.1 = (x, y) := by
  rcases List.mem_append.mp hsw with hl | hl
  all_goals
    split at hl
    · rw [List.mem_singleton] at hl
      rw [hl]
    · exact absurd hl (List.not_mem_nil _)

lemma specSwapOrder_nodup (w h : Nat) : (specSwapOrder w h).Nodup := by
  rw [specSwapOrder, List.nodup_flatMap]
  constructor
  · intro y _
    rw [List.nodup_flatMap]
    constructor
    · intro x _
      by_cases hA : x + 1 < w <;> by_cases hB : y + 1 < h <;>
        simp [hA, hB, List.nodup_cons] <;> omega
    · have hpw : (List.range w).Pairwise (· ≠ ·) := List.nodup_range w
      refine hpw.imp ?_
      intro x1 x2 hne
      simp only [Function.onFun]
      intro p hp1 hp2
      have h1 := mem_adjacent_pair hp1
      have h2 := mem_adjacent_pair hp2
      apply hne
      have hpp := h1.symm.trans h2
      exact (Prod.mk.injEq .. ▸ hpp).1
  · have hpw : (List.range h).Pairwise (· ≠ ·) := List.nodup_range h
    refine hpw.imp ?_
    intro y1 y2 hne
    simp only [Function.onFun]
    intro p hp1 hp2
    rw [List.mem_flatMap] at hp1 hp2
    obtain ⟨x1, -, hin1⟩ := hp1
    obtain ⟨x2, -, hin2⟩ := hp2
    have h1 := mem_adjacent_pair hin1
    have h2 := mem_adjacent_pair hin2
    apply hne
    have hpp := h1.symm.trans h2
    exact (Prod.mk.injEq .. ▸ hpp).2

lemma mem_specSwapOrder {w h : Nat} {sw : Swap} (hsw : sw ∈ specSwapOrder w h) :
    rowMajorEarlier sw.1 sw.2 := by
  rw [specSwapOrder, List.mem_flatMap] at hsw
  obtain ⟨y, -, hsw⟩ := hsw
  rw [List.mem_flatMap] at hsw
  obtain ⟨x, -, hsw⟩ := hsw
  rcases List.mem_append.mp hsw with hl | hl
  · split at hl
    · rw [List.mem_singleton] at hl
      subst hl
      exact Or.inr ⟨rfl, Nat.lt_succ_self x⟩
    · exact absurd hl (List.not_mem_nil _)
  · split at hl
    · rw [List.mem_singleton] at hl
      subst hl
      exact Or.inl (Nat.lt_succ_self y)
    · exact absurd hl (List.not_mem_nil _)

/-- C9: on a rectangular board with no EMPTY cells, `enumerate_swaps`
produces exactly the spec order (row-major source cells, right
neighbor before down neighbor), with W*(H-1) + H*(W-1) swaps, no
duplicates, and the first coordinate of every swap row-major-earlier
than the second. -/
theorem enumerate_swaps_spec (b : Board) (hb : b.Rect)
    (hne : ∀ x, x < b.width → ∀ y, y < b.height → b.get x y ≠ Gem.EMPTY) :
    enumerate_swaps b = specSwapOrder b.width b.height
    ∧ (enumerate_swaps b).length = b.width * (b.height - 1) + b.height * (b.width - 1)
    ∧ (enumerate_swaps b).Nodup
    ∧ ∀ sw ∈ enumerate_swaps b, rowMajorEarlier sw.1 sw.2 := by
  have heq := enumerate_swaps_eq_spec b hne
  refine ⟨heq, ?_, ?_, ?_⟩
  · rw [heq, specSwapOrder_length]
  · rw [heq]
    exact specSwapOrder_nodup _ _
  · intro sw hsw
    rw [heq] at hsw
    exact mem_specSwapOrder hsw

theorem enumerate_swaps_spec_witness :
    enumerate_swaps ⟨[[Gem.RED, Gem.BLUE], [Gem.BLUE, Gem.RED]]⟩
        = specSwapOrder (Board.mk [[Gem.RED, Gem.BLUE], [Gem.BLUE, Gem.RED]]).width
            (Board.mk [[Gem.RED, Gem.BLUE], [Gem.BLUE, Gem.RED]]).height
      ∧ (enumerate_swaps ⟨[[Gem.RED, Gem.BLUE], [Gem.BLUE, Gem.RED]]⟩).length
          = (Board.mk [[Gem.RED, Gem.BLUE], [Gem.BLUE, Gem.RED]]).width
              * ((Board.mk [[Gem.RED, Gem.BLUE], [Gem.BLUE, Gem.RED]]).height - 1)
            + (Board.mk [[Gem.RED, Gem.BLUE], [Gem.BLUE, Gem.RED]]).height
              * ((Board.mk [[Gem.RED, Gem.BLUE], [Gem.BLUE, Gem.RED]]).width - 1)
      ∧ (enumerate_swaps ⟨[[Gem.RED, Gem.BLUE], [Gem.BLUE, Gem.RED]]⟩).Nodup
      ∧ ∀ sw ∈ enumerate_swaps ⟨[[Gem.RED, Gem.BLUE], [Gem.BLUE, Gem.RED]]⟩,
          rowMajorEarlier sw.1 sw.2 :=
  enumerate_swaps_spec ⟨[[Gem.RED, Gem.BLUE], [Gem.BLUE, Gem.RED]]⟩
    (by decide) (by decide)

theorem refill_board_spec_witness :
    ∃ b2, refill_board ⟨[[Gem.EMPTY, Gem.RED], [Gem.BLUE, Gem.EMPTY]]⟩
        (fun n => if n = 0 then Gem.GREEN else Gem.YELLOW) 0
        = .ok (b2, countEmpty ⟨[[Gem.EMPTY, Gem.RED], [Gem.BLUE, Gem.EMPTY]]⟩)
      ∧ b2.width = (Board.mk [[Gem.EMPTY, Gem.RED], [Gem.BLUE, Gem.EMPTY]]).width
      ∧ b2.height = (Board.mk [[Gem.EMPTY, Gem.RED], [Gem.BLUE, Gem.EMPTY]]).height
      ∧ ∀ x y, x < (Board.mk [[Gem.EMPTY, Gem.RED], [Gem.BLUE, Gem.EMPTY]]).width →
          y < (Board.mk [[Gem.EMPTY, Gem.RED], [Gem.BLUE, Gem.EMPTY]]).height →
          b2.get x y
            = if (Board.mk [[Gem.EMPTY, Gem.RED], [Gem.BLUE, Gem.EMPTY]]).get x y = Gem.EMPTY
              then (fun n => if n = 0 then Gem.GREEN else Gem.YELLOW)
                (emptiesBefore ⟨[[Gem.EMPTY, Gem.RED], [Gem.BLUE, Gem.EMPTY]]⟩ x y)
              else (Board.mk [[Gem.EMPTY, Gem.RED], [Gem.BLUE, Gem.EMPTY]]).get x y :=
  refill_board_spec ⟨[[Gem.EMPTY, Gem.RED], [Gem.BLUE, Gem.EMPTY]]⟩
    (fun n => if n = 0 then Gem.GREEN else Gem.YELLOW) (by decide)
    (by
      intro m
      dsimp only
      split <;> simp)

theorem refill_board_error_iff_witness :
    ((∃ e, refill_board ⟨[[Gem.EMPTY]]⟩ (fun _ => Gem.EMPTY) 0 = .error e)
        ↔ ∃ k, k < countEmpty ⟨[[Gem.EMPTY]]⟩ ∧ (fun _ => Gem.EMPTY) k = Gem.EMPTY)
      ∧ refill_board ⟨[[Gem.EMPTY]]⟩ (fun _ => Gem.EMPTY) 0
          = .error "gem_supplier() returned GemType.EMPTY during refill." :=
  refill_board_error_iff ⟨[[Gem.EMPTY]]⟩ (fun _ => Gem.EMPTY) (by decide)

theorem transforms_preserve_dims_witness :
    ((apply_gravity ⟨[[Gem.EMPTY]]⟩).width = (Board.mk [[Gem.EMPTY]]).width
        ∧ (apply_gravity ⟨[[Gem.EMPTY]]⟩).height = (Board.mk [[Gem.EMPTY]]).height)
      ∧ ((Board.mk [[Gem.RED]]).width = (Board.mk [[Gem.EMPTY]]).width
        ∧ (Board.mk [[Gem.RED]]).height = (Board.mk [[Gem.EMPTY]]).height)
      ∧ ((apply_swap ⟨[[Gem.EMPTY]]⟩ ((0, 0), (0, 0))).width = (Board.mk [[Gem.EMPTY]]).width
        ∧ (apply_swap ⟨[[Gem.EMPTY]]⟩ ((0, 0), (0, 0))).height
            = (Board.mk [[Gem.EMPTY]]).height) :=
  transforms_preserve_dims ⟨[[Gem.EMPTY]]⟩ (fun _ => Gem.RED) 0
    ⟨[[Gem.RED]]⟩ 1 ((0, 0), (0, 0)) (by rfl)

end Bejeweled
